import Mathlib

/-!
Verification of the DCA buying-strategy engine (src/streamlit_app.py).

The numeric engine is embedded shallowly over the rationals:

* money and prices are `ℚ` (the source computes with Python floats; the
  engine's arithmetic is modelled exactly over `ℚ`, with the source's
  two-decimal rounding `round(x, 2)` modelled by `round2`);
* share quantities are `ℤ` (the source uses Python ints);
* `build_price_levels` has a `while True` loop with no structural bound,
  so it is embedded with an explicit fuel parameter returning `none` when
  the fuel runs out — a run of the source that terminates corresponds to
  every sufficiently large fuel value;
* the Streamlit `st.warning` side effects of `build_price_levels` are
  modelled separately by `build_price_levels_warnings`, which reproduces
  the warning strings emitted on each degenerate branch.
-/

/-- Python's `round(x, 2)`: round to two decimal places. -/
def round2 (x : ℚ) : ℚ := (round (x * 100) : ℤ) / 100

/-- One step of the price ladder: `current - interval_value` for fixed
dollar steps, `current * (1 - interval_value)` for percentage drops
(source lines 29-32). -/
def nextPrice (interval_type : String) (interval_value current : ℚ) : ℚ :=
  if interval_type = "$" then current - interval_value
  else current * (1 - interval_value)

/-- The `while True` loop of `build_price_levels` (source lines 28-37),
with explicit fuel. `none` means the fuel was exhausted; `some prices`
is the accumulated list at the `break`. -/
def priceLoop (interval_type : String) (interval_value end_price : ℚ) :
    ℕ → ℚ → List ℚ → Option (List ℚ)
  | 0, _, _ => none
  | fuel + 1, current_price, prices =>
    let next_price := nextPrice interval_type interval_value current_price
    if next_price ≤ end_price then some prices
    else priceLoop interval_type interval_value end_price fuel next_price
      (prices ++ [next_price])

/-- `build_price_levels(start_price, end_price, interval_type, interval_value)`
(source lines 9-42). Builds the descending ladder; the two degenerate
branches return without entering the loop. -/
def build_price_levels (fuel : ℕ) (start_price end_price : ℚ)
    (interval_type : String) (interval_value : ℚ) : Option (List ℚ) :=
  if start_price ≤ end_price then some [round2 start_price]
  else if interval_value ≤ 0 then some [round2 start_price, round2 end_price]
  else
    match priceLoop interval_type interval_value end_price fuel start_price
        [start_price] with
    | none => none
    | some ps => some ((ps ++ [end_price]).map round2)

/-- The `st.warning` messages `build_price_levels` emits, by branch
(source lines 19 and 23). -/
def build_price_levels_warnings (start_price end_price interval_value : ℚ) :
    List String :=
  if start_price ≤ end_price then
    ["Starting price must be ABOVE the Lowest Expected Price."]
  else if interval_value ≤ 0 then
    ["Interval value must be positive."]
  else []

/-- The per-level top-up quantity of `find_optimal_allocation`
(source lines 63-72): the guarded division, the clamp of negative
solutions to 0, and the ceiling. -/
def topUp (avg_cost_margin p_i S_price : ℚ) (S_shares : ℤ) : ℤ :=
  let lhs := S_price - (1 + avg_cost_margin) * p_i * (S_shares : ℚ)
  let denom := avg_cost_margin * p_i
  let min_needed := if denom ≠ 0 then lhs / denom else 0
  let min_clamped := if min_needed < 0 then 0 else min_needed
  ⌈min_clamped⌉

/-- The inner loop of `find_optimal_allocation` over `prices[1:]`
(source lines 63-76), carrying the running weighted cost `S_price` and
share count `S_shares`. Returns the list of top-up quantities. -/
def schedAux (avg_cost_margin : ℚ) : List ℚ → ℚ → ℤ → List ℤ
  | [], _, _ => []
  | p_i :: rest, S_price, S_shares =>
    let buy_i := topUp avg_cost_margin p_i S_price S_shares
    buy_i :: schedAux avg_cost_margin rest (S_price + p_i * (buy_i : ℚ))
      (S_shares + buy_i)

/-- The full quantity schedule induced by a candidate `Q0`
(source lines 57-76): level 0 buys exactly `Q0`, later levels buy the
greedy top-up. On an empty price list the source raises an IndexError at
`Q[0] = Q0`; the embedding returns `[]` there and theorems that depend on
the distinction assume a non-empty ladder. -/
def buildSchedule (prices : List ℚ) (avg_cost_margin : ℚ) (Q0 : ℕ) : List ℤ :=
  match prices with
  | [] => []
  | p0 :: rest =>
    (Q0 : ℤ) :: schedAux avg_cost_margin rest (p0 * (Q0 : ℚ)) (Q0 : ℤ)

/-- `sum(p*q for p,q in zip(prices, Q))` (source line 78). -/
def totalCost (prices : List ℚ) (Q : List ℤ) : ℚ :=
  (List.zipWith (fun p q => p * (q : ℚ)) prices Q).sum

/-- A candidate `Q0` is feasible when its induced schedule's total cost
is within the budget (source line 79). -/
def feasible (prices : List ℚ) (budget avg_cost_margin : ℚ) (q0 : ℕ) : Prop :=
  totalCost prices (buildSchedule prices avg_cost_margin q0) ≤ budget

instance (prices : List ℚ) (budget avg_cost_margin : ℚ) (q0 : ℕ) :
    Decidable (feasible prices budget avg_cost_margin q0) := by
  unfold feasible; infer_instance

/-- One iteration of the `for Q0 in range(max_Q0_search + 1)` loop
(source lines 56-82): the state is the pair `(best_Q0, best_solution)`. -/
def searchStep (prices : List ℚ) (budget avg_cost_margin : ℚ)
    (st : ℕ × Option (List ℤ × ℚ)) (Q0 : ℕ) : ℕ × Option (List ℤ × ℚ) :=
  let Q := buildSchedule prices avg_cost_margin Q0
  let total_cost := totalCost prices Q
  if total_cost ≤ budget ∧ st.1 < Q0 then (Q0, some (Q, total_cost)) else st

/-- The state `(best_Q0, best_solution)` after scanning `Q0 = 0, …, n-1`. -/
def partialSearch (prices : List ℚ) (budget avg_cost_margin : ℚ) (n : ℕ) :
    ℕ × Option (List ℤ × ℚ) :=
  (List.range n).foldl (searchStep prices budget avg_cost_margin) (0, none)

/-- `find_optimal_allocation(prices, budget, avg_cost_margin, max_Q0_search)`
(source lines 47-84): the `best_solution` after the full scan over
`Q0 ∈ [0, max_Q0_search]`. -/
def find_optimal_allocation (prices : List ℚ) (budget avg_cost_margin : ℚ)
    (max_Q0_search : ℕ) : Option (List ℤ × ℚ) :=
  (partialSearch prices budget avg_cost_margin (max_Q0_search + 1)).2

/-- The `best_Q0` variable of `find_optimal_allocation` after the full
scan (source lines 53, 80-81). -/
def best_Q0 (prices : List ℚ) (budget avg_cost_margin : ℚ)
    (max_Q0_search : ℕ) : ℕ :=
  (partialSearch prices budget avg_cost_margin (max_Q0_search + 1)).1

/-- One row of the display dataframe (source lines 111-119), fields in
source order with the source's rounding applied. -/
structure LevelRow where
  price : ℚ
  sharesPurchased : ℤ
  averagePurchasePrice : ℚ
  pctDiffCurVsAvg : ℚ
  costOfPurchase : ℚ
  cumulativeInvestment : ℚ
  cumulativeShares : ℤ
  deriving Repr, DecidableEq, Inhabited

/-- The row-building loop of `build_display_df` (source lines 98-119),
carrying `S_price`, `S_shares` and `cum_invest`. -/
def displayAux : List (ℚ × ℤ) → ℚ → ℤ → ℚ → List LevelRow
  | [], _, _, _ => []
  | (p, q) :: rest, S_price, S_shares, cum_invest =>
    let cost := p * (q : ℚ)
    let S_price' := S_price + cost
    let S_shares' := S_shares + q
    let avg_cost := if 0 < S_shares' then S_price' / (S_shares' : ℚ) else 0
    let diff_vs_avg := if avg_cost ≠ 0 then (p - avg_cost) / avg_cost * 100 else 0
    let cum_invest' := cum_invest + cost
    { price := round2 p
      sharesPurchased := q
      averagePurchasePrice := round2 avg_cost
      pctDiffCurVsAvg := round2 diff_vs_avg
      costOfPurchase := round2 cost
      cumulativeInvestment := round2 cum_invest'
      cumulativeShares := S_shares' } ::
      displayAux rest S_price' S_shares' cum_invest'

/-- `build_display_df(prices, shares)` (source lines 89-120), as the list
of its rows. -/
def build_display_df (prices : List ℚ) (shares : List ℤ) : List LevelRow :=
  displayAux (prices.zip shares) 0 0 0

/-- Cumulative cost through level `i` (inclusive) of a schedule. -/
def cumCost (prices : List ℚ) (Q : List ℤ) (i : ℕ) : ℚ :=
  (((prices.zip Q).take (i + 1)).map (fun pq => pq.1 * (pq.2 : ℚ))).sum

/-- Cumulative shares through level `i` (inclusive) of a schedule. -/
def cumShares (Q : List ℤ) (i : ℕ) : ℤ :=
  ((Q.take (i + 1)).sum)

/-- Running average cost after purchasing at level `i`, with the
convention of the source (0 when no shares are held). -/
def avgCostAt (prices : List ℚ) (Q : List ℤ) (i : ℕ) : ℚ :=
  if 0 < cumShares Q i then cumCost prices Q i / (cumShares Q i : ℚ) else 0

/-! ### Helper lemmas about the search fold -/

lemma partialSearch_zero (prices : List ℚ) (budget avg_cost_margin : ℚ) :
    partialSearch prices budget avg_cost_margin 0 = (0, none) := rfl

lemma partialSearch_succ (prices : List ℚ) (budget avg_cost_margin : ℚ) (n : ℕ) :
    partialSearch prices budget avg_cost_margin (n + 1) =
      searchStep prices budget avg_cost_margin
        (partialSearch prices budget avg_cost_margin n) n := by
  unfold partialSearch
  rw [List.range_succ, List.foldl_append]
  rfl

/-- The full invariant of the scan over `Q0`: what the pair
`(best_Q0, best_solution)` satisfies after scanning `Q0 = 0, …, n-1`. -/
lemma partialSearch_spec (prices : List ℚ) (budget avg_cost_margin : ℚ) (n : ℕ) :
    ((partialSearch prices budget avg_cost_margin n).2 = none →
        (partialSearch prices budget avg_cost_margin n).1 = 0) ∧
    (∀ Q c, (partialSearch prices budget avg_cost_margin n).2 = some (Q, c) →
        1 ≤ (partialSearch prices budget avg_cost_margin n).1 ∧
        (partialSearch prices budget avg_cost_margin n).1 < n ∧
        feasible prices budget avg_cost_margin
          (partialSearch prices budget avg_cost_margin n).1 ∧
        Q = buildSchedule prices avg_cost_margin
          (partialSearch prices budget avg_cost_margin n).1 ∧
        c = totalCost prices Q) ∧
    (∀ q0, q0 < n → feasible prices budget avg_cost_margin q0 →
        q0 ≤ (partialSearch prices budget avg_cost_margin n).1) ∧
    (∀ q0, 1 ≤ q0 → q0 < n → feasible prices budget avg_cost_margin q0 →
        (partialSearch prices budget avg_cost_margin n).2 ≠ none) := by
  induction n with
  | zero =>
    refine ⟨fun _ => rfl, ?_, ?_, ?_⟩
    · intro Q c h
      simp [partialSearch_zero] at h
    · intro q0 h
      omega
    · intro q0 _ h
      omega
  | succ n ih =>
    obtain ⟨ihA, ihB, ihC, ihD⟩ := ih
    rw [partialSearch_succ]
    by_cases hc : totalCost prices (buildSchedule prices avg_cost_margin n) ≤ budget ∧
        (partialSearch prices budget avg_cost_margin n).1 < n
    · have hstep : searchStep prices budget avg_cost_margin
          (partialSearch prices budget avg_cost_margin n) n =
          (n, some (buildSchedule prices avg_cost_margin n,
            totalCost prices (buildSchedule prices avg_cost_margin n))) := by
        simp only [searchStep, if_pos hc]
      rw [hstep]
      refine ⟨fun h => by simp at h, ?_, ?_, ?_⟩
      · intro Q c h
        simp only [Option.some.injEq, Prod.mk.injEq] at h
        refine ⟨by omega, by omega, hc.1, ?_, ?_⟩
        · exact h.1.symm
        · rw [← h.1]
          exact h.2.symm
      · intro q0 hq0 _
        omega
      · intro q0 _ _ _
        simp
    · have hstep : searchStep prices budget avg_cost_margin
          (partialSearch prices budget avg_cost_margin n) n =
          partialSearch prices budget avg_cost_margin n := by
        simp only [searchStep, if_neg hc]
      rw [hstep]
      refine ⟨ihA, ?_, ?_, ?_⟩
      · intro Q c h
        obtain ⟨h1, h2, h3, h4, h5⟩ := ihB Q c h
        exact ⟨h1, by omega, h3, h4, h5⟩
      · intro q0 hq0 hfeas
        rcases Nat.lt_succ_iff_lt_or_eq.mp hq0 with h | h
        · exact ihC q0 h hfeas
        · rw [h] at hfeas
          have hle : ¬ (partialSearch prices budget avg_cost_margin n).1 < n :=
            fun hlt => hc ⟨hfeas, hlt⟩
          omega
      · intro q0 h1 hq0 hfeas
        rcases Nat.lt_succ_iff_lt_or_eq.mp hq0 with h | h
        · exact ihD q0 h1 h hfeas
        · rw [h] at hfeas h1
          intro hnone
          have h0 := ihA hnone
          have hle : ¬ (partialSearch prices budget avg_cost_margin n).1 < n :=
            fun hlt => hc ⟨hfeas, hlt⟩
          omega

/-! ### Helper lemmas about the induced schedule -/

lemma schedAux_length (avg_cost_margin : ℚ) :
    ∀ (ps : List ℚ) (Sp : ℚ) (Ss : ℤ),
      (schedAux avg_cost_margin ps Sp Ss).length = ps.length := by
  intro ps
  induction ps with
  | nil => intro Sp Ss; rfl
  | cons p rest ih =>
    intro Sp Ss
    simp only [schedAux, List.length_cons]
    rw [ih]

lemma buildSchedule_length (prices : List ℚ) (avg_cost_margin : ℚ) (Q0 : ℕ) :
    (buildSchedule prices avg_cost_margin Q0).length = prices.length := by
  cases prices with
  | nil => rfl
  | cons p0 rest =>
    simp only [buildSchedule, List.length_cons]
    rw [schedAux_length]

lemma ite_clamp_nonneg (x : ℚ) : (0 : ℚ) ≤ if x < 0 then 0 else x := by
  split
  · exact le_refl 0
  · next hx => exact le_of_not_lt hx

lemma topUp_nonneg (avg_cost_margin p_i S_price : ℚ) (S_shares : ℤ) :
    0 ≤ topUp avg_cost_margin p_i S_price S_shares := by
  simp only [topUp]
  apply Int.ceil_nonneg
  split <;> exact ite_clamp_nonneg _

lemma schedAux_mem_nonneg (avg_cost_margin : ℚ) :
    ∀ (ps : List ℚ) (Sp : ℚ) (Ss : ℤ) (q : ℤ),
      q ∈ schedAux avg_cost_margin ps Sp Ss → 0 ≤ q := by
  intro ps
  induction ps with
  | nil => intro Sp Ss q h; simp [schedAux] at h
  | cons p rest ih =>
    intro Sp Ss q h
    simp only [schedAux, List.mem_cons] at h
    rcases h with h | h
    · rw [h]; exact topUp_nonneg _ _ _ _
    · exact ih _ _ _ h

lemma buildSchedule_mem_nonneg (prices : List ℚ) (avg_cost_margin : ℚ) (Q0 : ℕ)
    (q : ℤ) (h : q ∈ buildSchedule prices avg_cost_margin Q0) : 0 ≤ q := by
  cases prices with
  | nil => simp [buildSchedule] at h
  | cons p0 rest =>
    simp only [buildSchedule, List.mem_cons] at h
    rcases h with h | h
    · rw [h]; positivity
    · exact schedAux_mem_nonneg _ _ _ _ _ h

lemma topUp_zero_denom (avg_cost_margin p_i S_price : ℚ) (S_shares : ℤ)
    (h : avg_cost_margin * p_i = 0) :
    topUp avg_cost_margin p_i S_price S_shares = 0 := by
  unfold topUp
  simp [h]

lemma schedAux_zero_margin (ps : List ℚ) :
    ∀ (Sp : ℚ) (Ss : ℤ) (i : ℕ), i < ps.length →
      (schedAux 0 ps Sp Ss).getD i 1 = 0 := by
  induction ps with
  | nil => intro Sp Ss i h; simp at h
  | cons p rest ih =>
    intro Sp Ss i h
    cases i with
    | zero =>
      simp only [schedAux, List.getD_cons_zero]
      exact topUp_zero_denom 0 p Sp Ss (by ring)
    | succ j =>
      simp only [schedAux, List.getD_cons_succ]
      exact ih _ _ j (by simpa using h)

/-! ### The average-cost constraint enforced by the top-up rule -/

lemma le_ite_clamp (x : ℚ) : x ≤ if x < 0 then 0 else x := by
  split
  · next hx => exact le_of_lt hx
  · exact le_refl x

lemma topUp_ge_div (avg_cost_margin p_i S_price : ℚ) (S_shares : ℤ)
    (hne : avg_cost_margin * p_i ≠ 0) :
    (S_price - (1 + avg_cost_margin) * p_i * (S_shares : ℚ)) /
        (avg_cost_margin * p_i) ≤
      ((topUp avg_cost_margin p_i S_price S_shares : ℤ) : ℚ) := by
  have htu : topUp avg_cost_margin p_i S_price S_shares =
      ⌈if (S_price - (1 + avg_cost_margin) * p_i * (S_shares : ℚ)) /
            (avg_cost_margin * p_i) < 0 then (0 : ℚ)
        else (S_price - (1 + avg_cost_margin) * p_i * (S_shares : ℚ)) /
            (avg_cost_margin * p_i)⌉ := by
    simp [topUp, hne]
  rw [htu]
  exact le_trans (le_ite_clamp _) (Int.le_ceil _)

/-- After the purchase at a level whose denominator `margin * p_i` is
positive, the linear form of the average-cost constraint holds. -/
lemma topUp_spec (avg_cost_margin p_i S_price : ℚ) (S_shares : ℤ)
    (h : 0 < avg_cost_margin * p_i) :
    S_price + p_i * ((topUp avg_cost_margin p_i S_price S_shares : ℤ) : ℚ) ≤
      (1 + avg_cost_margin) * p_i *
        ((S_shares : ℚ) + ((topUp avg_cost_margin p_i S_price S_shares : ℤ) : ℚ)) := by
  have hkey := topUp_ge_div avg_cost_margin p_i S_price S_shares (ne_of_gt h)
  rw [div_le_iff₀ h] at hkey
  nlinarith [hkey]

/-- The constraint holds at every level of the inner loop whose
denominator is positive, whatever state the loop starts from. -/
lemma schedAux_constraint (avg_cost_margin : ℚ) :
    ∀ (ps : List ℚ) (Sp : ℚ) (Ss : ℤ) (i : ℕ), i < ps.length →
      0 < avg_cost_margin * ps.getD i 0 →
      Sp + (((ps.zip (schedAux avg_cost_margin ps Sp Ss)).take (i + 1)).map
          (fun pq => pq.1 * (pq.2 : ℚ))).sum ≤
        (1 + avg_cost_margin) * ps.getD i 0 *
          ((Ss + ((schedAux avg_cost_margin ps Sp Ss).take (i + 1)).sum : ℤ) : ℚ) := by
  intro ps
  induction ps with
  | nil => intro Sp Ss i h; simp at h
  | cons p rest ih =>
    intro Sp Ss i hi hden
    cases i with
    | zero =>
      simp only [List.getD_cons_zero] at hden
      simp only [schedAux, List.zip_cons_cons, List.take_succ_cons, List.take_zero,
        List.map_cons, List.map_nil, List.sum_cons, List.sum_nil, List.getD_cons_zero]
      have hspec := topUp_spec avg_cost_margin p Sp Ss hden
      push_cast
      linarith
    | succ j =>
      simp only [List.getD_cons_succ] at hden ⊢
      simp only [schedAux, List.zip_cons_cons, List.take_succ_cons,
        List.map_cons, List.sum_cons]
      have hlen : j < rest.length := by simpa using hi
      have hrec := ih (Sp + p * ((topUp avg_cost_margin p Sp Ss : ℤ) : ℚ))
        (Ss + topUp avg_cost_margin p Sp Ss) j hlen hden
      push_cast at hrec ⊢
      linarith

/-- The constraint, restated for the full schedule through `cumCost`
and `cumShares`. -/
lemma buildSchedule_constraint (prices : List ℚ) (avg_cost_margin : ℚ)
    (q0 : ℕ) (i : ℕ) (h1 : 1 ≤ i) (h2 : i < prices.length)
    (hden : 0 < avg_cost_margin * prices.getD i 0) :
    cumCost prices (buildSchedule prices avg_cost_margin q0) i ≤
      (1 + avg_cost_margin) * prices.getD i 0 *
        ((cumShares (buildSchedule prices avg_cost_margin q0) i : ℤ) : ℚ) := by
  cases prices with
  | nil => simp at h2
  | cons p0 rest =>
    obtain ⟨j, rfl⟩ : ∃ j, i = j + 1 := ⟨i - 1, by omega⟩
    have hlen : j < rest.length := by simpa using h2
    have hden' : 0 < avg_cost_margin * rest.getD j 0 := by
      simpa [List.getD_cons_succ] using hden
    have hrec := schedAux_constraint avg_cost_margin rest (p0 * (q0 : ℚ))
      (q0 : ℤ) j hlen hden'
    unfold cumCost cumShares buildSchedule
    simp only [List.zip_cons_cons, List.take_succ_cons, List.map_cons,
      List.sum_cons, List.getD_cons_succ]
    push_cast at hrec ⊢
    linarith

lemma cumShares_nonneg (prices : List ℚ) (avg_cost_margin : ℚ) (q0 : ℕ)
    (i : ℕ) : 0 ≤ cumShares (buildSchedule prices avg_cost_margin q0) i := by
  unfold cumShares
  apply List.sum_nonneg
  intro q hq
  exact buildSchedule_mem_nonneg prices avg_cost_margin q0 q
    (List.take_subset _ _ hq)

/-- The average-cost form of the constraint: with a non-negative margin
and a positive denominator at level `i`, the running average cost after
the purchase at level `i` is within `(1 + margin) * p_i`. -/
lemma buildSchedule_avg_le (prices : List ℚ) (avg_cost_margin : ℚ)
    (q0 : ℕ) (i : ℕ) (hm : 0 ≤ avg_cost_margin) (h1 : 1 ≤ i)
    (h2 : i < prices.length)
    (hden : 0 < avg_cost_margin * prices.getD i 0) :
    avgCostAt prices (buildSchedule prices avg_cost_margin q0) i ≤
      (1 + avg_cost_margin) * prices.getD i 0 := by
  have hp : 0 < prices.getD i 0 := by
    rcases lt_trichotomy (prices.getD i 0) 0 with h | h | h
    · nlinarith
    · rw [h] at hden; simp at hden
    · exact h
  have hcon := buildSchedule_constraint prices avg_cost_margin q0 i h1 h2 hden
  unfold avgCostAt
  split
  · next hpos =>
    rw [div_le_iff₀ (by exact_mod_cast hpos)]
    linarith
  · positivity

/-! ### Helper lemmas about the price ladder -/

lemma round2_mono (x y : ℚ) (h : x ≤ y) : round2 x ≤ round2 y := by
  unfold round2
  have hr : round (x * 100) ≤ round (y * 100) := by
    simp only [round_eq]
    exact Int.floor_mono (by linarith)
  have : ((round (x * 100) : ℤ) : ℚ) ≤ ((round (y * 100) : ℤ) : ℚ) := by
    exact_mod_cast hr
  linarith

/-- In the domain `0 < end_price < current`, `0 < interval_value`, one
loop step strictly decreases the current price, for either step rule. -/
lemma nextPrice_lt (interval_type : String) (interval_value end_price
    current : ℚ) (hval : 0 < interval_value) (hend : 0 < end_price)
    (hcur : end_price < current) :
    nextPrice interval_type interval_value current < current := by
  unfold nextPrice
  split
  · linarith
  · nlinarith

/-- Invariant of the ladder loop: starting from an accumulator whose
elements all sit above both the floor and the current price, a
successful run returns a strictly decreasing list of prices above the
floor extending the accumulator. -/
lemma priceLoop_spec (interval_type : String) (interval_value end_price : ℚ)
    (hval : 0 < interval_value) (hend : 0 < end_price) :
    ∀ (fuel : ℕ) (current : ℚ) (acc ps : List ℚ),
      end_price < current →
      (∀ x ∈ acc, current ≤ x) →
      (∀ x ∈ acc, end_price < x) →
      acc.Pairwise (· > ·) →
      priceLoop interval_type interval_value end_price fuel current acc =
        some ps →
      ps.Pairwise (· > ·) ∧ (∀ x ∈ ps, end_price < x) ∧ ∃ t, ps = acc ++ t := by
  intro fuel
  induction fuel with
  | zero => intro current acc ps _ _ _ _ h; simp [priceLoop] at h
  | succ n ih =>
    intro current acc ps hcur hge hfloor hpair h
    have hlt : nextPrice interval_type interval_value current < current :=
      nextPrice_lt interval_type interval_value end_price current hval hend hcur
    rw [priceLoop] at h
    by_cases hbr : nextPrice interval_type interval_value current ≤ end_price
    · rw [if_pos hbr] at h
      obtain rfl : acc = ps := by simpa using h
      exact ⟨hpair, hfloor, [], by simp⟩
    · rw [if_neg hbr] at h
      push_neg at hbr
      have hge' : ∀ x ∈ acc ++ [nextPrice interval_type interval_value current],
          nextPrice interval_type interval_value current ≤ x := by
        intro x hx
        rcases List.mem_append.mp hx with hx | hx
        · exact le_trans (le_of_lt hlt) (hge x hx)
        · simp at hx
          rw [hx]
      have hfloor' : ∀ x ∈ acc ++ [nextPrice interval_type interval_value current],
          end_price < x := by
        intro x hx
        rcases List.mem_append.mp hx with hx | hx
        · exact hfloor x hx
        · simp at hx
          rw [hx]
          exact hbr
      have hpair' : (acc ++ [nextPrice interval_type interval_value current]).Pairwise
          (· > ·) := by
        rw [List.pairwise_append]
        refine ⟨hpair, List.pairwise_singleton _ _, ?_⟩
        intro x hx y hy
        simp at hy
        rw [hy]
        exact lt_of_lt_of_le hlt (hge x hx)
      obtain ⟨hp1, hp2, t, ht⟩ := ih _ _ _ hbr hge' hfloor' hpair' h
      exact ⟨hp1, hp2, [nextPrice interval_type interval_value current] ++ t,
        by rw [ht, List.append_assoc]⟩

lemma nextPrice_dollar (interval_value current : ℚ) :
    nextPrice "$" interval_value current = current - interval_value := by
  simp [nextPrice]

lemma nextPrice_pct (interval_type : String) (hty : interval_type ≠ "$")
    (interval_value current : ℚ) :
    nextPrice interval_type interval_value current =
      current * (1 - interval_value) := by
  simp [nextPrice, hty]

/-- Fixed dollar steps: fuel `⌈(current - floor) / step⌉` suffices. -/
lemma priceLoop_isSome_dollar (interval_value end_price : ℚ)
    (hval : 0 < interval_value) :
    ∀ (fuel : ℕ) (current : ℚ) (acc : List ℚ),
      current - end_price ≤ (fuel : ℚ) * interval_value →
      (priceLoop "$" interval_value end_price (fuel + 1) current acc).isSome := by
  intro fuel
  induction fuel with
  | zero =>
    intro current acc h
    rw [priceLoop, nextPrice_dollar]
    have hbr : current - interval_value ≤ end_price := by
      push_cast at h
      linarith
    rw [if_pos hbr]
    rfl
  | succ n ih =>
    intro current acc h
    rw [priceLoop, nextPrice_dollar]
    by_cases hbr : current - interval_value ≤ end_price
    · rw [if_pos hbr]
      rfl
    · rw [if_neg hbr]
      apply ih
      push_cast at h ⊢
      linarith

/-- Percentage steps with a fraction in `(0, 1)` and a positive floor:
any fuel `n` with `current * (1 - f)^n ≤ floor` suffices. -/
lemma priceLoop_isSome_pct (interval_type : String) (hty : interval_type ≠ "$")
    (interval_value end_price : ℚ) (hval : 0 < interval_value)
    (hv1 : interval_value < 1) :
    ∀ (fuel : ℕ) (current : ℚ) (acc : List ℚ), 0 < current →
      current * (1 - interval_value) ^ fuel ≤ end_price →
      (priceLoop interval_type interval_value end_price (fuel + 1) current
        acc).isSome := by
  intro fuel
  induction fuel with
  | zero =>
    intro current acc hcur h
    rw [priceLoop, nextPrice_pct interval_type hty]
    have hbr : current * (1 - interval_value) ≤ end_price := by
      rw [pow_zero, mul_one] at h
      nlinarith
    rw [if_pos hbr]
    rfl
  | succ n ih =>
    intro current acc hcur h
    rw [priceLoop, nextPrice_pct interval_type hty]
    by_cases hbr : current * (1 - interval_value) ≤ end_price
    · rw [if_pos hbr]
      rfl
    · rw [if_neg hbr]
      apply ih _ _ (by nlinarith)
      calc current * (1 - interval_value) * (1 - interval_value) ^ n
          = current * (1 - interval_value) ^ (n + 1) := by ring
        _ ≤ end_price := h

/-- Away from the degenerate branches, `build_price_levels` is the image
of the loop's result. -/
lemma build_price_levels_eq_map (fuel : ℕ) (start_price end_price : ℚ)
    (interval_type : String) (interval_value : ℚ)
    (h1 : ¬ start_price ≤ end_price) (h2 : ¬ interval_value ≤ 0) :
    build_price_levels fuel start_price end_price interval_type interval_value =
      (priceLoop interval_type interval_value end_price fuel start_price
        [start_price]).map (fun ps => (ps ++ [end_price]).map round2) := by
  unfold build_price_levels
  rw [if_neg h1, if_neg h2]
  cases priceLoop interval_type interval_value end_price fuel start_price
    [start_price] <;> rfl

/-! ### Helper lemmas about the display rows -/

/-- `S_price` of `build_display_df` after processing level `i`, started
from `Sp`. -/
def dispSP (prices : List ℚ) (shares : List ℤ) (Sp : ℚ) (i : ℕ) : ℚ :=
  Sp + (((prices.zip shares).take (i + 1)).map
    (fun pq => pq.1 * (pq.2 : ℚ))).sum

/-- `S_shares` of `build_display_df` after processing level `i`, started
from `Ss`. -/
def dispSS (shares : List ℤ) (Ss : ℤ) (i : ℕ) : ℤ :=
  Ss + (shares.take (i + 1)).sum

/-- `avg_cost` of `build_display_df` at level `i` (source line 103). -/
def dispAvg (prices : List ℚ) (shares : List ℤ) (Sp : ℚ) (Ss : ℤ)
    (i : ℕ) : ℚ :=
  if 0 < dispSS shares Ss i then
    dispSP prices shares Sp i / ((dispSS shares Ss i : ℤ) : ℚ)
  else 0

/-- `diff_vs_avg` of `build_display_df` at level `i` (source lines 105-107). -/
def dispDiff (prices : List ℚ) (shares : List ℤ) (Sp : ℚ) (Ss : ℤ)
    (i : ℕ) : ℚ :=
  if dispAvg prices shares Sp Ss i ≠ 0 then
    (prices.getD i 0 - dispAvg prices shares Sp Ss i) /
      dispAvg prices shares Sp Ss i * 100
  else 0

lemma dispSP_cons (p : ℚ) (q : ℤ) (ps : List ℚ) (qs : List ℤ) (Sp : ℚ)
    (j : ℕ) :
    dispSP (p :: ps) (q :: qs) Sp (j + 1) =
      dispSP ps qs (Sp + p * (q : ℚ)) j := by
  simp only [dispSP, List.zip_cons_cons, List.take_succ_cons, List.map_cons,
    List.sum_cons]
  ring

lemma dispSS_cons (q : ℤ) (qs : List ℤ) (Ss : ℤ) (j : ℕ) :
    dispSS (q :: qs) Ss (j + 1) = dispSS qs (Ss + q) j := by
  simp only [dispSS, List.take_succ_cons, List.sum_cons]
  ring

lemma dispAvg_cons (p : ℚ) (q : ℤ) (ps : List ℚ) (qs : List ℤ) (Sp : ℚ)
    (Ss : ℤ) (j : ℕ) :
    dispAvg (p :: ps) (q :: qs) Sp Ss (j + 1) =
      dispAvg ps qs (Sp + p * (q : ℚ)) (Ss + q) j := by
  unfold dispAvg
  rw [dispSP_cons, dispSS_cons]

lemma dispDiff_cons (p : ℚ) (q : ℤ) (ps : List ℚ) (qs : List ℤ) (Sp : ℚ)
    (Ss : ℤ) (j : ℕ) :
    dispDiff (p :: ps) (q :: qs) Sp Ss (j + 1) =
      dispDiff ps qs (Sp + p * (q : ℚ)) (Ss + q) j := by
  unfold dispDiff
  rw [dispAvg_cons, List.getD_cons_succ]

/-- Full characterization of the rows of the display loop: the `i`-th
row is built from the prefix sums through level `i`. -/
lemma displayAux_getD :
    ∀ (prices : List ℚ) (shares : List ℤ) (Sp : ℚ) (Ss : ℤ) (cum : ℚ)
      (i : ℕ), shares.length = prices.length → i < prices.length →
      (displayAux (prices.zip shares) Sp Ss cum).getD i default =
        { price := round2 (prices.getD i 0)
          sharesPurchased := shares.getD i 0
          averagePurchasePrice := round2 (dispAvg prices shares Sp Ss i)
          pctDiffCurVsAvg := round2 (dispDiff prices shares Sp Ss i)
          costOfPurchase := round2 (prices.getD i 0 * (shares.getD i 0 : ℚ))
          cumulativeInvestment := round2 (dispSP prices shares cum i)
          cumulativeShares := dispSS shares Ss i } := by
  intro prices
  induction prices with
  | nil => intro shares Sp Ss cum i _ hi; simp at hi
  | cons p ps ih =>
    intro shares Sp Ss cum i hlen hi
    cases shares with
    | nil => simp at hlen
    | cons q qs =>
      have hlen' : qs.length = ps.length := by simpa using hlen
      cases i with
      | zero =>
        simp only [List.zip_cons_cons, displayAux, List.getD_cons_zero]
        have hSS : dispSS (q :: qs) Ss 0 = Ss + q := by
          simp [dispSS]
        have hSP : dispSP (p :: ps) (q :: qs) Sp 0 = Sp + p * (q : ℚ) := by
          simp [dispSP]
        have hCI : dispSP (p :: ps) (q :: qs) cum 0 = cum + p * (q : ℚ) := by
          simp [dispSP]
        have hAvg : dispAvg (p :: ps) (q :: qs) Sp Ss 0 =
            if 0 < Ss + q then (Sp + p * (q : ℚ)) / ((Ss + q : ℤ) : ℚ)
            else 0 := by
          rw [dispAvg, hSS, hSP]
        have hDiff : dispDiff (p :: ps) (q :: qs) Sp Ss 0 =
            if dispAvg (p :: ps) (q :: qs) Sp Ss 0 ≠ 0 then
              (p - dispAvg (p :: ps) (q :: qs) Sp Ss 0) /
                dispAvg (p :: ps) (q :: qs) Sp Ss 0 * 100
            else 0 := by
          rw [dispDiff, List.getD_cons_zero]
        rw [LevelRow.mk.injEq]
        refine ⟨rfl, rfl, ?_, ?_, rfl, ?_, ?_⟩
        · rw [hAvg]
        · rw [hDiff, hAvg]
        · rw [hCI]
        · rw [hSS]
      | succ j =>
        have hj : j < ps.length := by simpa using hi
        have hz : (p :: ps).zip (q :: qs) = (p, q) :: ps.zip qs := rfl
        rw [hz]
        simp only [displayAux, List.getD_cons_succ]
        rw [ih qs (Sp + p * (q : ℚ)) (Ss + q) (cum + p * (q : ℚ)) j hlen' hj,
          dispAvg_cons, dispDiff_cons, dispSP_cons, dispSS_cons]

lemma round2_zero : round2 0 = 0 := by
  simp [round2]

lemma dispSP_zero (prices : List ℚ) (shares : List ℤ) (i : ℕ) :
    dispSP prices shares 0 i = cumCost prices shares i := by
  simp [dispSP, cumCost]

lemma dispSS_zero (shares : List ℤ) (i : ℕ) :
    dispSS shares 0 i = cumShares shares i := by
  simp [dispSS, cumShares]

lemma dispAvg_zero (prices : List ℚ) (shares : List ℤ) (i : ℕ) :
    dispAvg prices shares 0 0 i = avgCostAt prices shares i := by
  rw [avgCostAt, dispAvg, dispSP_zero, dispSS_zero]

lemma dispDiff_zero (prices : List ℚ) (shares : List ℤ) (i : ℕ) :
    dispDiff prices shares 0 0 i =
      if avgCostAt prices shares i ≠ 0 then
        (prices.getD i 0 - avgCostAt prices shares i) /
          avgCostAt prices shares i * 100
      else 0 := by
  rw [dispDiff, dispAvg_zero]

/-! ### The claims -/

/-- Claim C4 (corrected, counterexample): with a fixed dollar step of
0.002 from 75 down to 74.99, adjacent ladder entries round to the same
cent value, so the returned ladder is not strictly decreasing (and its
fourth element equals the floor price while not being the last). -/
theorem C4_counterexample :
    build_price_levels 10 75 (7499 / 100) "$" (1 / 500) =
      some [75, 75, 75, 7499 / 100, 7499 / 100, 7499 / 100] ∧
    ¬ ([(75 : ℚ), 75, 75, 7499 / 100, 7499 / 100, 7499 / 100].Pairwise
      (· > ·)) := by
  constructor
  · norm_num [build_price_levels, priceLoop, nextPrice, round2, round_eq]
  · norm_num [List.pairwise_cons]

/-- Claim C4 (corrected, amended): for a positive floor below the start
and a positive step, any terminating run of `build_price_levels` returns
a weakly decreasing ladder whose first element is `round2 start`, whose
last element is `round2 floor`, and all of whose elements are at least
`round2 floor`. (Strict decrease, and intermediates strictly above the
floor, fail once the step is below the cent-rounding resolution.) -/
theorem C4_ladder_shape (fuel : ℕ)
    (start_price end_price interval_value : ℚ) (interval_type : String)
    (l : List ℚ) (h1 : end_price < start_price) (h2 : 0 < end_price)
    (h3 : 0 < interval_value)
    (h : build_price_levels fuel start_price end_price interval_type
      interval_value = some l) :
    l.Pairwise (· ≥ ·) ∧ l.head? = some (round2 start_price) ∧
      l.getLast? = some (round2 end_price) ∧
      ∀ x ∈ l, round2 end_price ≤ x := by
  rw [build_price_levels_eq_map fuel start_price end_price interval_type
    interval_value (not_le.mpr h1) (not_le.mpr h3)] at h
  cases hp : priceLoop interval_type interval_value end_price fuel
      start_price [start_price] with
  | none => rw [hp] at h; simp at h
  | some ps =>
    rw [hp] at h
    obtain rfl : (ps ++ [end_price]).map round2 = l := by simpa using h
    obtain ⟨hpair, hfloor, t, rfl⟩ :=
      priceLoop_spec interval_type interval_value end_price h3 h2 fuel
        start_price [start_price] ps h1
        (by intro x hx; simp at hx; rw [hx])
        (by intro x hx; simp at hx; rw [hx]; exact h1)
        (List.pairwise_singleton _ _) hp
    have hupair : (([start_price] ++ t) ++ [end_price]).Pairwise (· > ·) := by
      rw [List.pairwise_append]
      refine ⟨hpair, List.pairwise_singleton _ _, ?_⟩
      intro x hx y hy
      simp at hy
      rw [hy]
      exact hfloor x hx
    refine ⟨?_, ?_, ?_, ?_⟩
    · exact hupair.map round2
        (fun a b hab => round2_mono b a (le_of_lt hab))
    · simp
    · rw [List.map_append]
      exact List.getLast?_concat _
    · intro x hx
      simp only [List.mem_map] at hx
      obtain ⟨y, hy, rfl⟩ := hx
      rcases List.mem_append.mp hy with hy | hy
      · exact round2_mono _ _ (le_of_lt (hfloor y hy))
      · simp at hy
        rw [hy]

/-- Claim C4 witness: the spec's own example ladder
`build_ladder(75, 60, Absolute(2.50))`. -/
theorem C4_witness :
    (60 : ℚ) < 75 ∧ (0 : ℚ) < 60 ∧ (0 : ℚ) < 5 / 2 ∧
    ([(75 : ℚ), 72.5, 70, 67.5, 65, 62.5, 60].Pairwise (· ≥ ·) ∧
      [(75 : ℚ), 72.5, 70, 67.5, 65, 62.5, 60].head? = some (round2 75) ∧
      [(75 : ℚ), 72.5, 70, 67.5, 65, 62.5, 60].getLast? = some (round2 60) ∧
      ∀ x ∈ [(75 : ℚ), 72.5, 70, 67.5, 65, 62.5, 60], round2 60 ≤ x) := by
  refine ⟨by norm_num, by norm_num, by norm_num, ?_⟩
  exact C4_ladder_shape 10 75 60 (5 / 2) "$"
    [75, 72.5, 70, 67.5, 65, 62.5, 60] (by norm_num) (by norm_num)
    (by norm_num)
    (by norm_num [build_price_levels, priceLoop, nextPrice, round2, round_eq])

/-- Claim C6: on inverted prices the ladder degrades to the single
rounded start price, and on a non-positive step to the two-element
rounded ladder; in both cases a warning is recorded and a value is
returned (no exception). -/
theorem C6_degenerate (fuel : ℕ)
    (start_price end_price interval_value : ℚ) (interval_type : String) :
    (start_price ≤ end_price →
      build_price_levels fuel start_price end_price interval_type
          interval_value = some [round2 start_price] ∧
      build_price_levels_warnings start_price end_price interval_value ≠ []) ∧
    (end_price < start_price → interval_value ≤ 0 →
      build_price_levels fuel start_price end_price interval_type
          interval_value = some [round2 start_price, round2 end_price] ∧
      build_price_levels_warnings start_price end_price interval_value ≠ []) := by
  constructor
  · intro h
    constructor
    · rw [build_price_levels, if_pos h]
    · rw [build_price_levels_warnings, if_pos h]
      simp
  · intro h1 h2
    constructor
    · rw [build_price_levels, if_neg (not_le.mpr h1), if_pos h2]
    · rw [build_price_levels_warnings, if_neg (not_le.mpr h1), if_pos h2]
      simp

lemma isSome_opt_map {α β : Type} (f : α → β) (o : Option α) :
    (o.map f).isSome = o.isSome := by
  cases o <;> rfl

/-- Claim C8: in the documented domain (positive floor below the start,
positive step, and for percentage steps a fraction below 1) the ladder
loop terminates: some finite fuel makes `build_price_levels` return a
value. -/
theorem C8_termination (interval_type : String)
    (start_price end_price interval_value : ℚ) (h1 : 0 < end_price)
    (h2 : end_price < start_price) (h3 : 0 < interval_value)
    (h4 : interval_type ≠ "$" → interval_value < 1) :
    ∃ fuel, (build_price_levels fuel start_price end_price interval_type
      interval_value).isSome := by
  have hstart : 0 < start_price := lt_trans h1 h2
  by_cases hty : interval_type = "$"
  · subst hty
    refine ⟨⌈(start_price - end_price) / interval_value⌉₊ + 1, ?_⟩
    rw [build_price_levels_eq_map _ _ _ _ _ (not_le.mpr h2) (not_le.mpr h3),
      isSome_opt_map]
    apply priceLoop_isSome_dollar _ _ h3
    have hceil := Nat.le_ceil ((start_price - end_price) / interval_value)
    rw [div_le_iff₀ h3] at hceil
    exact hceil
  · obtain ⟨n, hn⟩ := exists_pow_lt_of_lt_one
      (show (0 : ℚ) < end_price / start_price from div_pos h1 hstart)
      (show 1 - interval_value < 1 by linarith)
    refine ⟨n + 1, ?_⟩
    rw [build_price_levels_eq_map _ _ _ _ _ (not_le.mpr h2) (not_le.mpr h3),
      isSome_opt_map]
    apply priceLoop_isSome_pct interval_type hty interval_value end_price h3
      (h4 hty) n start_price [start_price] hstart
    have : start_price * ((1 - interval_value) ^ n) <
        start_price * (end_price / start_price) :=
      mul_lt_mul_of_pos_left hn hstart
    rw [mul_div_cancel₀ end_price (ne_of_gt hstart)] at this
    exact le_of_lt this

/-- Claim C8 witness: the absolute-step and percentage-step examples both
terminate. -/
theorem C8_witness :
    (∃ fuel, (build_price_levels fuel 75 60 "$" (5 / 2)).isSome) ∧
    (∃ fuel, (build_price_levels fuel 75 60 "%" (1 / 20)).isSome) :=
  ⟨C8_termination "$" 75 60 (5 / 2) (by norm_num) (by norm_num) (by norm_num)
      (fun h => absurd rfl h),
    C8_termination "%" 75 60 (1 / 20) (by norm_num) (by norm_num) (by norm_num)
      (fun _ => by norm_num)⟩

/-- Claim C1 (corrected, counterexample): with the one-level ladder
`[10]`, budget 5 and search bound 2, the candidate `Q0 = 0` is feasible
(its schedule costs 0), yet the search returns `None`: the update
condition `Q0 > best_Q0` starts with `best_Q0 = 0`, so a feasible
`Q0 = 0` alone never produces a result. -/
theorem C1_counterexample :
    find_optimal_allocation [10] 5 0 2 = none ∧ feasible [10] 5 0 0 := by
  constructor
  · norm_num [find_optimal_allocation, partialSearch, List.range_succ,
      searchStep, buildSchedule, schedAux, topUp, totalCost]
  · norm_num [feasible, buildSchedule, totalCost]

/-- Claim C1 (corrected, amended): the search returns `None` exactly
when no strictly positive `Q0` in `[1, max_lot_search]` is feasible;
feasibility of `Q0 = 0` alone does not prevent the `None` result. -/
theorem C1_infeasible_iff (prices : List ℚ) (budget avg_cost_margin : ℚ)
    (max_Q0_search : ℕ) :
    find_optimal_allocation prices budget avg_cost_margin max_Q0_search =
      none ↔
    ∀ q0, 1 ≤ q0 → q0 ≤ max_Q0_search →
      ¬ feasible prices budget avg_cost_margin q0 := by
  obtain ⟨hA, hB, hC, hD⟩ :=
    partialSearch_spec prices budget avg_cost_margin (max_Q0_search + 1)
  constructor
  · intro hnone q0 hq1 hq2 hfeas
    exact hD q0 hq1 (by omega) hfeas hnone
  · intro hall
    rcases hopt : find_optimal_allocation prices budget avg_cost_margin
        max_Q0_search with _ | ⟨Q, c⟩
    · rfl
    · obtain ⟨hb1, hb2, hb3, _, _⟩ := hB Q c hopt
      exact absurd hb3 (hall _ hb1 (by omega))

/-- Claim C2 (corrected, counterexample): with `tolerance = 0`, ladder
`[10, 5]`, budget 1000 and bound 2, the search returns the schedule
`[2, 0]`, whose running average cost after level 1 is 10, exceeding
`(1 + 0) * price[1] = 5` — the search does not reduce `Q0` when level 0
alone violates the average-cost inequality. -/
theorem C2_counterexample :
    find_optimal_allocation [10, 5] 1000 0 2 = some ([2, 0], 20) ∧
    ¬ (avgCostAt [10, 5] [2, 0] 1 ≤ (1 + 0) * (5 : ℚ)) := by
  constructor
  · norm_num [find_optimal_allocation, partialSearch, List.range_succ,
      searchStep, buildSchedule, schedAux, topUp, totalCost]
  · norm_num [avgCostAt, cumCost, cumShares]

/-- Claim C2 (corrected, amended): for every returned schedule and every
level `i ≥ 1` whose denominator `tolerance * price[i]` is positive (with
a non-negative tolerance), the running average cost after level `i` is
at most `(1 + tolerance) * price[i]`. When the denominator is zero — in
particular when `tolerance = 0` — the top-up clamps to 0 and no
constraint is enforced at that level. -/
theorem C2_avg_cost_bound (prices : List ℚ) (budget avg_cost_margin : ℚ)
    (max_Q0_search : ℕ) (Q : List ℤ) (c : ℚ) (i : ℕ)
    (hm : 0 ≤ avg_cost_margin)
    (h : find_optimal_allocation prices budget avg_cost_margin
      max_Q0_search = some (Q, c))
    (h1 : 1 ≤ i) (h2 : i < prices.length)
    (hden : 0 < avg_cost_margin * prices.getD i 0) :
    avgCostAt prices Q i ≤ (1 + avg_cost_margin) * prices.getD i 0 := by
  obtain ⟨_, hB, _, _⟩ :=
    partialSearch_spec prices budget avg_cost_margin (max_Q0_search + 1)
  obtain ⟨_, _, _, hQ, _⟩ := hB Q c h
  rw [hQ]
  exact buildSchedule_avg_le prices avg_cost_margin _ i hm h1 h2 hden

/-- Claim C2 witness: with tolerance 1/50 on the ladder `[10, 5]` the
bound holds at level 1 for the returned schedule. -/
theorem C2_witness :
    (0 : ℚ) ≤ 1 / 50 ∧ 1 ≤ 1 ∧ 1 < ([(10 : ℚ), 5]).length ∧
    (0 : ℚ) < 1 / 50 * ([(10 : ℚ), 5]).getD 1 0 ∧
    avgCostAt [10, 5] [1, 49] 1 ≤ (1 + 1 / 50) * ([(10 : ℚ), 5]).getD 1 0 := by
  refine ⟨by norm_num, le_refl 1, by norm_num, by norm_num, ?_⟩
  apply C2_avg_cost_bound [10, 5] 500 (1 / 50) 1 [1, 49] 255 1 (by norm_num)
  · norm_num [find_optimal_allocation, partialSearch, List.range_succ,
      searchStep, buildSchedule, schedAux, topUp, totalCost,
      Int.ceil_eq_iff]
  · exact le_refl 1
  · norm_num
  · norm_num

/-- Claim C3: every returned pair `(Q, c)` satisfies `c ≤ budget`,
`c` is the schedule's total cost, and `Q` is the schedule induced by the
largest feasible `Q0` in range: no strictly larger candidate within
`max_lot_search` is feasible. -/
theorem C3_largest_feasible (prices : List ℚ) (budget avg_cost_margin : ℚ)
    (max_Q0_search : ℕ) (Q : List ℤ) (c : ℚ) (hne : prices ≠ [])
    (h : find_optimal_allocation prices budget avg_cost_margin
      max_Q0_search = some (Q, c)) :
    c ≤ budget ∧ c = totalCost prices Q ∧
      ∃ q0 : ℕ, q0 ≤ max_Q0_search ∧
        Q = buildSchedule prices avg_cost_margin q0 ∧
        Q.headD 0 = (q0 : ℤ) ∧
        feasible prices budget avg_cost_margin q0 ∧
        ∀ q0' : ℕ, q0' ≤ max_Q0_search →
          feasible prices budget avg_cost_margin q0' → q0' ≤ q0 := by
  obtain ⟨_, hB, hC, _⟩ :=
    partialSearch_spec prices budget avg_cost_margin (max_Q0_search + 1)
  obtain ⟨hb1, hb2, hb3, hQ, hc⟩ := hB Q c h
  refine ⟨?_, hc, (partialSearch prices budget avg_cost_margin
    (max_Q0_search + 1)).1, by omega, hQ, ?_, hb3, ?_⟩
  · rw [hc, hQ]
    exact hb3
  · rw [hQ]
    cases prices with
    | nil => exact absurd rfl hne
    | cons p0 rest => simp [buildSchedule]
  · intro q0' hle hf
    exact hC q0' (by omega) hf

/-- Claim C3 witness: on the ladder `[10, 5]` with budget 1000,
tolerance 0 and bound 2, the result `([2, 0], 20)` is the schedule of
the largest feasible `Q0`. -/
theorem C3_witness :
    (20 : ℚ) ≤ 1000 ∧ (20 : ℚ) = totalCost [10, 5] [2, 0] ∧
      ∃ q0 : ℕ, q0 ≤ 2 ∧ ([2, 0] : List ℤ) = buildSchedule [10, 5] 0 q0 ∧
        ([2, 0] : List ℤ).headD 0 = (q0 : ℤ) ∧ feasible [10, 5] 1000 0 q0 ∧
        ∀ q0' : ℕ, q0' ≤ 2 → feasible [10, 5] 1000 0 q0' → q0' ≤ q0 :=
  C3_largest_feasible [10, 5] 1000 0 2 [2, 0] 20 (by simp)
    (by norm_num [find_optimal_allocation, partialSearch, List.range_succ,
      searchStep, buildSchedule, schedAux, topUp, totalCost])

/-- Claim C5: with `tolerance = 0` the guarded division makes every
minimum-needed computation fall back to 0, so every level after level 0
buys 0 shares — both in every candidate schedule the search builds and
in any returned schedule. -/
theorem C5_zero_tolerance (prices : List ℚ) (budget : ℚ)
    (max_Q0_search : ℕ) (q0 : ℕ) (i : ℕ) (h1 : 1 ≤ i)
    (h2 : i < prices.length) :
    (buildSchedule prices 0 q0).getD i 1 = 0 ∧
      ∀ Q c, find_optimal_allocation prices budget 0 max_Q0_search =
          some (Q, c) → Q.getD i 1 = 0 := by
  have hzero : ∀ q0' : ℕ, (buildSchedule prices 0 q0').getD i 1 = 0 := by
    intro q0'
    cases prices with
    | nil => simp at h2
    | cons p0 rest =>
      obtain ⟨j, rfl⟩ : ∃ j, i = j + 1 := ⟨i - 1, by omega⟩
      simp only [buildSchedule, List.getD_cons_succ]
      exact schedAux_zero_margin rest _ _ j (by simpa using h2)
  refine ⟨hzero q0, ?_⟩
  intro Q c h
  obtain ⟨_, hB, _, _⟩ := partialSearch_spec prices budget 0 (max_Q0_search + 1)
  obtain ⟨_, _, _, hQ, _⟩ := hB Q c h
  rw [hQ]
  exact hzero _

/-- Claim C5 witness: level 1 of the zero-tolerance schedules on the
ladder `[10, 5]`. -/
theorem C5_witness :
    (buildSchedule [10, 5] 0 7).getD 1 1 = 0 ∧
      ∀ Q c, find_optimal_allocation [10, 5] 1000 0 2 = some (Q, c) →
        Q.getD 1 1 = 0 :=
  C5_zero_tolerance [10, 5] 1000 2 7 1 (le_refl 1) (by norm_num)

/-- Monotonicity of the scanned `best_Q0` in the budget, scan length by
scan length. -/
lemma partialSearch_fst_mono (prices : List ℚ) (b1 b2 avg_cost_margin : ℚ)
    (hb : b1 ≤ b2) :
    ∀ n, (partialSearch prices b1 avg_cost_margin n).1 ≤
      (partialSearch prices b2 avg_cost_margin n).1 := by
  intro n
  induction n with
  | zero => exact le_refl 0
  | succ n ih =>
    rw [partialSearch_succ, partialSearch_succ]
    simp only [searchStep]
    by_cases hc1 : totalCost prices (buildSchedule prices avg_cost_margin n) ≤
        b1 ∧ (partialSearch prices b1 avg_cost_margin n).1 < n
    · rw [if_pos hc1]
      by_cases hc2 : totalCost prices (buildSchedule prices avg_cost_margin n) ≤
          b2 ∧ (partialSearch prices b2 avg_cost_margin n).1 < n
      · rw [if_pos hc2]
      · rw [if_neg hc2]
        have : ¬ (partialSearch prices b2 avg_cost_margin n).1 < n :=
          fun hlt => hc2 ⟨le_trans hc1.1 hb, hlt⟩
        omega
    · rw [if_neg hc1]
      by_cases hc2 : totalCost prices (buildSchedule prices avg_cost_margin n) ≤
          b2 ∧ (partialSearch prices b2 avg_cost_margin n).1 < n
      · rw [if_pos hc2]
        omega
      · rw [if_neg hc2]
        exact ih

/-- Claim C7: raising the budget (everything else fixed) never lowers
the `best_Q0` found by the search. -/
theorem C7_budget_mono (prices : List ℚ) (b1 b2 avg_cost_margin : ℚ)
    (max_Q0_search : ℕ) (hb : b1 ≤ b2) :
    best_Q0 prices b1 avg_cost_margin max_Q0_search ≤
      best_Q0 prices b2 avg_cost_margin max_Q0_search :=
  partialSearch_fst_mono prices b1 b2 avg_cost_margin hb (max_Q0_search + 1)

/-- Claim C7 witness. -/
theorem C7_witness :
    best_Q0 [10, 5] 10 0 2 ≤ best_Q0 [10, 5] 1000 0 2 :=
  C7_budget_mono [10, 5] 10 1000 0 2 (by norm_num)

/-- Claim C10: every returned pair `(Q, c)` is internally consistent:
one entry per ladder level, all entries non-negative, the level-0 entry
is the selected `best_Q0`, and `c` is the total cost recomputed from the
returned schedule. -/
theorem C10_consistency (prices : List ℚ) (budget avg_cost_margin : ℚ)
    (max_Q0_search : ℕ) (Q : List ℤ) (c : ℚ) (hne : prices ≠ [])
    (h : find_optimal_allocation prices budget avg_cost_margin
      max_Q0_search = some (Q, c)) :
    Q.length = prices.length ∧ (∀ q ∈ Q, 0 ≤ q) ∧
      Q.headD 0 = (best_Q0 prices budget avg_cost_margin max_Q0_search : ℤ) ∧
      c = totalCost prices Q := by
  obtain ⟨_, hB, _, _⟩ :=
    partialSearch_spec prices budget avg_cost_margin (max_Q0_search + 1)
  obtain ⟨_, _, _, hQ, hc⟩ := hB Q c h
  refine ⟨?_, ?_, ?_, hc⟩
  · rw [hQ, buildSchedule_length]
  · intro q hq
    rw [hQ] at hq
    exact buildSchedule_mem_nonneg _ _ _ _ hq
  · rw [hQ]
    unfold best_Q0
    cases prices with
    | nil => exact absurd rfl hne
    | cons p0 rest => simp [buildSchedule]

/-- Claim C10 witness. -/
theorem C10_witness :
    ([2, 0] : List ℤ).length = ([(10 : ℚ), 5]).length ∧
      (∀ q ∈ ([2, 0] : List ℤ), 0 ≤ q) ∧
      ([2, 0] : List ℤ).headD 0 = (best_Q0 [10, 5] 1000 0 2 : ℤ) ∧
      (20 : ℚ) = totalCost [10, 5] [2, 0] :=
  C10_consistency [10, 5] 1000 0 2 [2, 0] 20 (by simp)
    (by norm_num [find_optimal_allocation, partialSearch, List.range_succ,
      searchStep, buildSchedule, schedAux, topUp, totalCost])

/-- Claim C9: each display row is determined by the prefix sums through
its level: the reported average cost is 0 (not an error) when no shares
are held, the reported deviation is 0 when the average cost is 0, and
otherwise average cost is cumulative cost over cumulative shares and
deviation is `(price - avg) / avg * 100`, currency fields rounded to two
decimals at output. -/
theorem C9_metrics (prices : List ℚ) (shares : List ℤ) (i : ℕ)
    (hlen : shares.length = prices.length) (hi : i < prices.length) :
    (build_display_df prices shares).getD i default =
      { price := round2 (prices.getD i 0)
        sharesPurchased := shares.getD i 0
        averagePurchasePrice := round2 (avgCostAt prices shares i)
        pctDiffCurVsAvg := round2 (if avgCostAt prices shares i ≠ 0 then
            (prices.getD i 0 - avgCostAt prices shares i) /
              avgCostAt prices shares i * 100
          else 0)
        costOfPurchase := round2 (prices.getD i 0 * (shares.getD i 0 : ℚ))
        cumulativeInvestment := round2 (cumCost prices shares i)
        cumulativeShares := cumShares shares i } ∧
    (cumShares shares i = 0 →
      ((build_display_df prices shares).getD i default).averagePurchasePrice
        = 0) ∧
    (avgCostAt prices shares i = 0 →
      ((build_display_df prices shares).getD i default).pctDiffCurVsAvg
        = 0) := by
  have hrow := displayAux_getD prices shares 0 0 0 i hlen hi
  rw [dispAvg_zero, dispDiff_zero, dispSP_zero, dispSS_zero] at hrow
  rw [build_display_df]
  refine ⟨hrow, ?_, ?_⟩
  · intro hzero
    rw [hrow]
    have : avgCostAt prices shares i = 0 := by
      rw [avgCostAt, hzero]
      simp
    rw [this, round2_zero]
  · intro hzero
    rw [hrow]
    simp only [hzero, ne_eq, not_true_eq_false, if_neg, ite_false,
      not_false_eq_true, round2_zero]

/-- Claim C9 witness: the two-level pair `([10, 5], [0, 2])`, whose
first level holds no shares. -/
theorem C9_witness :
    ((build_display_df [10, 5] [0, 2]).getD 0 default =
      { price := round2 (([(10 : ℚ), 5]).getD 0 0)
        sharesPurchased := ([0, 2] : List ℤ).getD 0 0
        averagePurchasePrice := round2 (avgCostAt [10, 5] [0, 2] 0)
        pctDiffCurVsAvg := round2 (if avgCostAt [10, 5] [0, 2] 0 ≠ 0 then
            (([(10 : ℚ), 5]).getD 0 0 - avgCostAt [10, 5] [0, 2] 0) /
              avgCostAt [10, 5] [0, 2] 0 * 100
          else 0)
        costOfPurchase := round2 (([(10 : ℚ), 5]).getD 0 0 *
          (([0, 2] : List ℤ).getD 0 0 : ℚ))
        cumulativeInvestment := round2 (cumCost [10, 5] [0, 2] 0)
        cumulativeShares := cumShares [0, 2] 0 }) ∧
    (cumShares ([0, 2] : List ℤ) 0 = 0 →
      ((build_display_df [10, 5] [0, 2]).getD 0
        default).averagePurchasePrice = 0) ∧
    (avgCostAt [10, 5] [0, 2] 0 = 0 →
      ((build_display_df [10, 5] [0, 2]).getD 0
        default).pctDiffCurVsAvg = 0) :=
  C9_metrics [10, 5] [0, 2] 0 (by norm_num) (by norm_num)
